import Mathlib

/-
Verification development for the TrueRestore signature player.

The repository renders a recorded handwriting document as a timed
stroke-by-stroke reveal animation.  Two source variants exist:
the primary one in src/signature-player.js (multi-segment masks,
a loop option, an abortable fetch) and an older near-duplicate in
src/unnamed/part_000 (single-segment mask via recordedStrokeData.d,
no fetch cancellation).  The definitions below are shallow embeddings
of both variants: pure fragments become Lean functions over the
rationals (measured path lengths, durations, opacities), and the
timer-driven playback controller and the fetch effect become explicit
transition functions on small state records.
-/

namespace TrueRestore

/-! ## Data model (signature-player.js lines 26-58)

A recorded stroke entry carries an optional legacy single-segment
path `d`, an optional default `width`, and an optional preferred
multi-segment list `rawStrokes`.  Path lengths are measured from the
path text at use time; the measuring primitive (the DOM call
getTotalLength on the constructed path element) is passed in as a
function from the optional path text to a rational length. -/

/-- One entry of a rawStrokes list: a path text and an optional width,
both possibly absent exactly as in the JSON input. -/
structure RawSeg where
  d : Option String
  width : Option ℚ
deriving DecidableEq

/-- One recordedStrokes entry: legacy single path `d`, default `width`,
and the preferred multi-segment list `rawStrokes` (absent or present). -/
structure RecordedStrokeData where
  d : Option String
  width : Option ℚ
  rawStrokes : Option (List RawSeg)
deriving DecidableEq

/-- A measured segment: path text, resolved stroke width, measured length. -/
structure MeasuredSeg where
  d : Option String
  width : ℚ
  len : ℚ
deriving DecidableEq

/-- A fully timed segment as stored in the component state: measured data
plus the allocated sub-duration and cumulative start delay. -/
structure Seg where
  d : Option String
  width : ℚ
  len : ℚ
  duration : ℚ
  delay : ℚ
deriving DecidableEq

/-- JavaScript truthiness of an optional numeric value followed by a
default, as in `a || b`: zero and absence both fall through. -/
def orFalsy (o : Option ℚ) (dflt : ℚ) : ℚ :=
  match o with
  | some x => if x = 0 then dflt else x
  | none => dflt

/-- JavaScript truthiness of an optional string followed by a default,
as in `color || "#000"`: the empty string and absence both fall through. -/
def strOr (o : Option String) (dflt : String) : String :=
  match o with
  | some s => if s = "" then dflt else s
  | none => dflt

/-- JavaScript truthiness of an optional string (used for the maskPath
test in part_000): present and non-empty. -/
def jsTruthy (o : Option String) : Bool :=
  match o with
  | some s => !(s == "")
  | none => false

/-- Raw segment list selection, signature-player.js lines 40-42:
use rawStrokes when present and non-empty, otherwise fall back to the
legacy single segment built from the entry level `d` and `width`. -/
def selectRaw (r : RecordedStrokeData) : List RawSeg :=
  match r.rawStrokes with
  | some l => if 0 < l.length then l else [⟨r.d, r.width⟩]
  | none => [⟨r.d, r.width⟩]

/-- Measurement of the selected raw segments, signature-player.js
lines 44-48: each segment's width is `s.width || entry.width || 12`
and its length is measured from the path text. -/
def measuredOf (measure : Option String → ℚ) (r : RecordedStrokeData) :
    List MeasuredSeg :=
  (selectRaw r).map (fun s => ⟨s.d, orFalsy s.width (orFalsy r.width 12), measure s.d⟩)

/-- Total measured trace length, signature-player.js line 50. -/
def totalLenOf (measure : Option String → ℚ) (r : RecordedStrokeData) : ℚ :=
  ((measuredOf measure r).map MeasuredSeg.len).sum

/-- Timing allocation over the measured segments, signature-player.js
lines 51-58: each segment gets duration `len / totalLen * D` when the
total length is positive (else zero), and a delay equal to the
accumulated durations of the preceding segments. -/
def assignTiming (D T : ℚ) : List MeasuredSeg → ℚ → List Seg
  | [], _ => []
  | m :: rest, acc =>
    (⟨m.d, m.width, m.len, if 0 < T then m.len / T * D else 0, acc⟩ : Seg) ::
      assignTiming D T rest (acc + (if 0 < T then m.len / T * D else 0))

/-- The segments state computed by the measurement effect,
signature-player.js lines 34-59: empty when the entry is absent,
otherwise the timed measurement of the selected raw segments. -/
def computeSegments (measure : Option String → ℚ) (D : ℚ)
    (rsd : Option RecordedStrokeData) : List Seg :=
  match rsd with
  | none => []
  | some r => assignTiming D (totalLenOf measure r) (measuredOf measure r) 0

/-! ## Per-stroke presentation (signature-player.js lines 61-121) -/

/-- Fade-mode opacity, signature-player.js lines 63-65: opacity one for
a completed stroke, one for the current stroke while writing, else zero. -/
def fadeOpacity (index currentStep direction : Int) : ℚ :=
  if index < currentStep then 1
  else if index = currentStep ∧ direction = 1 then 1
  else 0

/-- Outline opacity of the masked filled path, signature-player.js
line 119 (and part_000 line 98): zero exactly for a waiting stroke. -/
def outlineOpacity (index currentStep : Int) : ℚ :=
  if currentStep < index then 0 else 1

/-- The animation attached to a mask segment: none, the dash keyframes
(offset animates to zero) with a duration and start delay, or the
undash keyframes (offset animates from zero to the segment length). -/
inductive SegAnim where
  | noAnim
  | dash (dur delayq : ℚ)
  | undash (dur delayq : ℚ)
deriving DecidableEq

/-- Static dash offset of one mask segment, signature-player.js
lines 76-94: zero when completed, the full length when waiting, the
full length for the current stroke while writing (the dash animation
then drives it to zero), zero while erasing (the undash animation
drives it to the full length). -/
def segDashOffset (index currentStep direction : Int) (seg : Seg) : ℚ :=
  if index < currentStep then 0
  else if currentStep < index then seg.len
  else if direction = 1 then seg.len
  else 0

/-- Animation of one mask segment, signature-player.js lines 76-94:
none outside the current stroke; dash with the segment's duration and
delay while writing; undash with the same duration and the mirrored
delay `D - (delay + duration)` while erasing. -/
def segAnimOf (D : ℚ) (index currentStep direction : Int) (seg : Seg) : SegAnim :=
  if index < currentStep then SegAnim.noAnim
  else if currentStep < index then SegAnim.noAnim
  else if direction = 1 then SegAnim.dash seg.duration seg.delay
  else SegAnim.undash seg.duration (D - (seg.delay + seg.duration))

/-- Presentation of one mask segment, signature-player.js lines 97-108:
path text, stroke width, dash array equal to the measured length, the
static dash offset and the attached animation. -/
structure MaskSegPresentation where
  d : Option String
  width : ℚ
  dashArray : ℚ
  dashOffset : ℚ
  anim : SegAnim
deriving DecidableEq

/-- Assembled presentation of one mask segment. -/
def maskSegPresentation (D : ℚ) (index currentStep direction : Int)
    (seg : Seg) : MaskSegPresentation :=
  ⟨seg.d, seg.width, seg.len,
    segDashOffset index currentStep direction seg,
    segAnimOf D index currentStep direction seg⟩

/-- Presentation of one stroke: either a plain fading path (path text,
fill color, opacity, transition duration) or a masked group (mask
segment presentations, outline path text, fill color, outline opacity). -/
inductive RenderOutput where
  | fadePath (d : String) (fill : String) (opacity : ℚ) (transitionMs : ℚ)
  | maskedGroup (maskSegs : List MaskSegPresentation) (d : String)
      (fill : String) (outlineOp : ℚ)
deriving DecidableEq

/-- The render branch of AnimatedPath, signature-player.js lines 61-121:
fall back to the plain fade when the recorded entry is absent or the
measured segment state is empty, otherwise emit the masked group. -/
def renderStroke (D : ℚ) (d : String) (color : Option String)
    (index currentStep direction : Int)
    (rsd : Option RecordedStrokeData) (segments : List Seg) : RenderOutput :=
  if rsd = none ∨ segments.length = 0 then
    RenderOutput.fadePath d (strOr color "#000")
      (fadeOpacity index currentStep direction) D
  else
    RenderOutput.maskedGroup
      (segments.map (maskSegPresentation D index currentStep direction))
      d (strOr color "#000") (outlineOpacity index currentStep)

/-- Full per-stroke pipeline: measure and time the recorded entry, then
render with the resulting segment state. -/
def renderFromData (measure : Option String → ℚ) (D : ℚ) (d : String)
    (color : Option String) (index currentStep direction : Int)
    (rsd : Option RecordedStrokeData) : RenderOutput :=
  renderStroke D d color index currentStep direction rsd
    (computeSegments measure D rsd)

/-! ## part_000 variant of the per-stroke state (lines 44-62) -/

/-- Target opacity of the part_000 variant, lines 44-62: one when
completed, zero when waiting, and for the current stroke one while
writing, else one exactly when a truthy maskPath exists. -/
def targetOpacity (index currentStep direction : Int)
    (maskPath : Option String) : ℚ :=
  if index < currentStep then 1
  else if currentStep < index then 0
  else if direction = 1 then 1
  else if jsTruthy maskPath then 1 else 0

/-- Target dash offset of the part_000 variant, lines 44-62: zero when
completed, the full length when waiting, and for the current stroke
zero while writing, else the full length. -/
def targetOffset (index currentStep direction : Int) (lenq : ℚ) : ℚ :=
  if index < currentStep then 0
  else if currentStep < index then lenq
  else if direction = 1 then 0
  else lenq

/-! ## Reveal schedules of the mask animations

The injected keyframes (signature-player.js lines 11-12) drive the
dash offset linearly: `dash` animates it from the static value (the
full segment length) to zero, `undash` from zero to the full length,
each with a duration, a start delay, linear easing and forwards fill.
The revealed length of a segment is its length minus the offset. -/

/-- Dash offset under the forward `dash` animation at time `t`:
the full length before the delay, a linear descent to zero during the
active interval, zero afterwards (forwards fill). -/
def forwardOffset (lenq dur delayq t : ℚ) : ℚ :=
  if t < delayq then lenq
  else if t < delayq + dur then lenq - (t - delayq) / dur * lenq
  else 0

/-- Dash offset under the backward `undash` animation at time `t`:
zero before the delay (the static offset of the erase branch), a linear
ascent to the full length during the active interval, the full length
afterwards (forwards fill). -/
def backwardOffset (lenq dur delayq t : ℚ) : ℚ :=
  if t < delayq then 0
  else if t < delayq + dur then (t - delayq) / dur * lenq
  else lenq

/-- Revealed length of a segment under the forward animation. -/
def dashRevealed (lenq dur delayq t : ℚ) : ℚ :=
  lenq - forwardOffset lenq dur delayq t

/-- Revealed length of a segment under the backward animation. -/
def undashRevealed (lenq dur delayq t : ℚ) : ℚ :=
  lenq - backwardOffset lenq dur delayq t

/-! ## Playback controller (signature-player.js lines 124-169)

The controller owns the pair (step, direction); direction is the
number 1 while writing and -1 while erasing, exactly as in the code.
Each observable transition is one firing of the chained timers: a
regular tick takes `duration + delay`; the two dwell transitions take
a tick plus the configured dwell.  A `none` result means the tick
handler scheduled nothing, so the controller is halted for good. -/

/-- Player configuration, signature-player.js lines 18-24. -/
structure Config where
  loop : Bool
  duration : ℚ
  delay : ℚ
  loopDelay : ℚ
  eraseDelay : ℚ
deriving DecidableEq

/-- The default configuration DEFAULT_CONFIG. -/
def defaultConfig : Config := ⟨true, 1000, 100, 2000, 500⟩

/-- Controller state: the step cursor and the play direction. -/
structure PState where
  step : Int
  direction : Int
deriving DecidableEq

/-- One observable controller transition with its latency,
signature-player.js lines 150-167: advancing while writing, reversing
after the post-write dwell when looping (halting otherwise), retreating
while erasing, and reversing after the post-erase dwell at step zero. -/
def nextTransition (cfg : Config) (total : Int) (s : PState) :
    Option (ℚ × PState) :=
  if s.direction = 1 then
    if s.step < total - 1 then
      some (cfg.duration + cfg.delay, ⟨s.step + 1, s.direction⟩)
    else if cfg.loop then
      some (cfg.duration + cfg.delay + cfg.loopDelay, ⟨s.step, -1⟩)
    else none
  else
    if 0 < s.step then
      some (cfg.duration + cfg.delay, ⟨s.step - 1, s.direction⟩)
    else
      some (cfg.duration + cfg.delay + cfg.eraseDelay, ⟨s.step, 1⟩)

/-- The start transition fired 500 milliseconds after the document
loads, signature-player.js line 139: it sets the step to zero. -/
def startTransition (s : PState) : PState := ⟨0, s.direction⟩

/-- Iterated controller transitions: the state after `n` observable
transitions, or `none` once the controller has halted. -/
def run (cfg : Config) (total : Int) (s : PState) : Nat → Option PState
  | 0 => some s
  | n + 1 =>
    match run cfg total s n with
    | none => none
    | some st => (nextTransition cfg total st).map Prod.snd

/-- Reachability along controller transitions. -/
inductive Reaches (cfg : Config) (total : Int) : PState → PState → Prop
  | refl (s : PState) : Reaches cfg total s s
  | tick {a b c : PState} {t : ℚ} :
      Reaches cfg total a b → nextTransition cfg total b = some (t, c) →
      Reaches cfg total a c

/-- Controller invariant after start-up: the direction is one of the
two legal values and the step stays between zero and total minus one. -/
def ControllerInv (total : Int) (s : PState) : Prop :=
  (s.direction = 1 ∨ s.direction = -1) ∧ 0 ≤ s.step ∧ s.step ≤ total - 1

/-! ## Fetch effect (signature-player.js lines 131-143, part_000 lines 123-134)

The fetch effect is modelled as a fold over an event list: the player
teardown (the effect cleanup), the resolution of the fetch (carrying
whether the parsed document has a paths list), and the firing of the
500 millisecond start timer.  The world records the abort flag of the
AbortController, whether the start timer is armed, whether teardown
has happened, whether the document state was set, and the step. -/

/-- State of the fetch effect and the player state it may mutate. -/
structure FetchWorld where
  aborted : Bool
  timerArmed : Bool
  torndown : Bool
  dataSet : Bool
  step : Int
deriving DecidableEq

/-- The world at mount: nothing aborted, no timer, no data, step -1. -/
def initWorld : FetchWorld := ⟨false, false, false, false, -1⟩

/-- Events acting on the fetch effect. -/
inductive FEvent where
  | teardown
  | resolve (hasPaths : Bool)
  | timerFire
deriving DecidableEq

/-- Event semantics of the signature-player.js fetch effect: the
cleanup aborts the controller signal and clears the start timer; a
resolution is dropped when the signal is aborted, otherwise it sets
the data and arms the start timer when the document has paths; the
start timer, when armed, fires once and sets the step to zero. -/
def fstep (w : FetchWorld) : FEvent → FetchWorld
  | FEvent.teardown => ⟨true, false, true, w.dataSet, w.step⟩
  | FEvent.resolve hasPaths =>
    if w.aborted then w
    else if hasPaths then ⟨w.aborted, true, w.torndown, true, w.step⟩
    else w
  | FEvent.timerFire =>
    if w.timerArmed then ⟨w.aborted, false, w.torndown, w.dataSet, 0⟩ else w

/-- Event semantics of the part_000 fetch effect, lines 123-134: the
effect registers no cleanup, so teardown aborts nothing and clears no
timer; a late resolution still sets the data and arms the start timer. -/
def fstep000 (w : FetchWorld) : FEvent → FetchWorld
  | FEvent.teardown => ⟨w.aborted, w.timerArmed, true, w.dataSet, w.step⟩
  | FEvent.resolve hasPaths =>
    if hasPaths then ⟨w.aborted, true, w.torndown, true, w.step⟩ else w
  | FEvent.timerFire =>
    if w.timerArmed then ⟨w.aborted, false, w.torndown, w.dataSet, 0⟩ else w

/-- Quiescence: no data set, step still -1, no start timer armed. -/
def Quiet (w : FetchWorld) : Prop :=
  w.dataSet = false ∧ w.step = -1 ∧ w.timerArmed = false

/-- A dead world: aborted and quiescent; no event can wake it. -/
def Dead (w : FetchWorld) : Prop := w.aborted = true ∧ Quiet w

/-! ## Helper lemmas about the timing allocation -/

/-- The allocated durations do not depend on the accumulator and follow
the proportional formula with the zero-total guard. -/
theorem assignTiming_map_duration (D T : ℚ) (ms : List MeasuredSeg) (acc : ℚ) :
    (assignTiming D T ms acc).map Seg.duration
      = ms.map (fun m => if 0 < T then m.len / T * D else 0) := by
  induction ms generalizing acc with
  | nil => rfl
  | cons m rest ih => simp [assignTiming, ih]

/-- The timing allocation preserves the measured lengths. -/
theorem assignTiming_map_len (D T : ℚ) (ms : List MeasuredSeg) (acc : ℚ) :
    (assignTiming D T ms acc).map Seg.len = ms.map MeasuredSeg.len := by
  induction ms generalizing acc with
  | nil => rfl
  | cons m rest ih => simp [assignTiming, ih]

/-- The timing allocation preserves the number of segments. -/
theorem assignTiming_length (D T : ℚ) (ms : List MeasuredSeg) (acc : ℚ) :
    (assignTiming D T ms acc).length = ms.length := by
  induction ms generalizing acc with
  | nil => rfl
  | cons m rest ih => simp [assignTiming, ih]

/-- With a positive total the allocated durations sum to the
proportional share of the total measured length. -/
theorem assignTiming_sum_pos (D T : ℚ) (ms : List MeasuredSeg) (acc : ℚ)
    (hT : 0 < T) :
    ((assignTiming D T ms acc).map Seg.duration).sum
      = (ms.map MeasuredSeg.len).sum / T * D := by
  rw [assignTiming_map_duration]
  simp only [if_pos hT]
  induction ms with
  | nil => simp
  | cons m rest ih =>
    simp only [List.map_cons, List.sum_cons, ih]
    ring

/-- With a positive total, each allocated duration is the segment's
length share of the total times the stroke duration. -/
theorem assignTiming_get_duration (D T : ℚ) (hT : 0 < T)
    (ms : List MeasuredSeg) (acc : ℚ) (i : Nat)
    (h : i < (assignTiming D T ms acc).length) :
    ((assignTiming D T ms acc).get ⟨i, h⟩).duration
      = ((assignTiming D T ms acc).get ⟨i, h⟩).len / T * D := by
  induction ms generalizing acc i with
  | nil => simp [assignTiming] at h
  | cons m rest ih =>
    cases i with
    | zero => simp [assignTiming, if_pos hT]
    | succ i =>
      simp only [assignTiming, List.get_cons_succ]
      exact ih _ _ _

/-- Each allocated delay is the accumulator plus the sum of the
durations of the preceding segments. -/
theorem assignTiming_get_delay (D T : ℚ) (ms : List MeasuredSeg) (acc : ℚ)
    (i : Nat) (h : i < (assignTiming D T ms acc).length) :
    ((assignTiming D T ms acc).get ⟨i, h⟩).delay
      = acc + (((assignTiming D T ms acc).take i).map Seg.duration).sum := by
  induction ms generalizing acc i with
  | nil => simp [assignTiming] at h
  | cons m rest ih =>
    cases i with
    | zero => simp [assignTiming]
    | succ i =>
      simp only [assignTiming, List.get_cons_succ, List.take_succ_cons,
        List.map_cons, List.sum_cons]
      rw [ih]
      ring

/-- Consecutive segments are strictly sequential: each delay is the
previous delay plus the previous duration. -/
theorem assignTiming_delay_succ (D T : ℚ) (ms : List MeasuredSeg) (acc : ℚ)
    (i : Nat) (h : i + 1 < (assignTiming D T ms acc).length)
    (h' : i < (assignTiming D T ms acc).length) :
    ((assignTiming D T ms acc).get ⟨i + 1, h⟩).delay
      = ((assignTiming D T ms acc).get ⟨i, h'⟩).delay
        + ((assignTiming D T ms acc).get ⟨i, h'⟩).duration := by
  induction ms generalizing acc i with
  | nil => simp [assignTiming] at h
  | cons m rest ih =>
    cases i with
    | zero =>
      cases rest with
      | nil => simp [assignTiming] at h
      | cons m' rest' => simp [assignTiming]
    | succ i =>
      simp only [assignTiming, List.get_cons_succ]
      exact ih _ _ _ _

/-- With a non-positive total (the guard branch), every allocated
duration is zero and every delay equals the accumulator. -/
theorem assignTiming_not_pos (D T : ℚ) (hT : ¬ 0 < T) (ms : List MeasuredSeg)
    (acc : ℚ) : ∀ s ∈ assignTiming D T ms acc, s.duration = 0 ∧ s.delay = acc := by
  induction ms generalizing acc with
  | nil => simp [assignTiming]
  | cons m rest ih =>
    intro s hs
    simp only [assignTiming, if_neg hT, add_zero, List.mem_cons] at hs
    rcases hs with rfl | hs
    · exact ⟨rfl, rfl⟩
    · exact ih acc s hs

/-! ## Claim theorems: renderer classification and fade equivalence -/

/-- Claim C1: for every stroke and every controller state, a stroke
with index below the current step is fully revealed and fully opaque
(fade opacity one, mask dash offset zero with no animation, outline
opacity one, and in the part_000 variant target opacity one and target
offset zero), and a stroke with index above the current step is fully
hidden (fade opacity zero, dash offset the full segment length, outline
opacity zero, target opacity zero and target offset the full length),
in both cases regardless of the play direction. -/
theorem c1_classification (D : ℚ) (index currentStep direction : Int)
    (seg : Seg) (lenq : ℚ) (mp : Option String) :
    (index < currentStep →
        fadeOpacity index currentStep direction = 1
      ∧ segDashOffset index currentStep direction seg = 0
      ∧ segAnimOf D index currentStep direction seg = SegAnim.noAnim
      ∧ outlineOpacity index currentStep = 1
      ∧ targetOpacity index currentStep direction mp = 1
      ∧ targetOffset index currentStep direction lenq = 0)
  ∧ (currentStep < index →
        fadeOpacity index currentStep direction = 0
      ∧ segDashOffset index currentStep direction seg = seg.len
      ∧ segAnimOf D index currentStep direction seg = SegAnim.noAnim
      ∧ outlineOpacity index currentStep = 0
      ∧ targetOpacity index currentStep direction mp = 0
      ∧ targetOffset index currentStep direction lenq = lenq) := by
  constructor
  · intro h
    have h1 : ¬ currentStep < index := by omega
    simp [fadeOpacity, segDashOffset, segAnimOf, outlineOpacity,
      targetOpacity, targetOffset, h, h1]
  · intro h
    have h1 : ¬ index < currentStep := by omega
    have h2 : ¬ (index = currentStep ∧ direction = 1) := by
      rintro ⟨he, -⟩
      omega
    simp [fadeOpacity, segDashOffset, segAnimOf, outlineOpacity,
      targetOpacity, targetOffset, h, h1, h2]

/-- Witness for C1 at concrete inputs: stroke 0 with current step 1 is
fully shown even while erasing, and stroke 2 with current step 1 is
fully hidden even while writing. -/
theorem c1_classification_witness :
    (fadeOpacity 0 1 (-1) = 1
      ∧ segDashOffset 0 1 (-1) ⟨some "M1 1", 12, 7, 700, 0⟩ = 0
      ∧ segAnimOf 1000 0 1 (-1) ⟨some "M1 1", 12, 7, 700, 0⟩ = SegAnim.noAnim
      ∧ outlineOpacity 0 1 = 1
      ∧ targetOpacity 0 1 (-1) none = 1
      ∧ targetOffset 0 1 (-1) 7 = 0)
  ∧ (fadeOpacity 2 1 1 = 0
      ∧ segDashOffset 2 1 1 ⟨some "M1 1", 12, 7, 700, 0⟩ = (7 : ℚ)
      ∧ segAnimOf 1000 2 1 1 ⟨some "M1 1", 12, 7, 700, 0⟩ = SegAnim.noAnim
      ∧ outlineOpacity 2 1 = 0
      ∧ targetOpacity 2 1 1 none = 0
      ∧ targetOffset 2 1 1 7 = 7) :=
  ⟨(c1_classification 1000 0 1 (-1) ⟨some "M1 1", 12, 7, 700, 0⟩ 7 none).1
      (by decide),
   (c1_classification 1000 2 1 1 ⟨some "M1 1", 12, 7, 700, 0⟩ 7 none).2
      (by decide)⟩

/-- Claim C7: in fade mode (maskPath falsy), the part_000 target
opacity agrees with the signature-player.js fade opacity on every
input; a current stroke while erasing is hidden, exactly like a
pending stroke. -/
theorem c7_fade_backward_hidden (index currentStep direction : Int)
    (mp : Option String) (hmp : jsTruthy mp = false) :
    targetOpacity index currentStep direction mp
      = fadeOpacity index currentStep direction
  ∧ (direction ≠ 1 →
      fadeOpacity currentStep currentStep direction = 0
      ∧ targetOpacity currentStep currentStep direction mp = 0)
  ∧ (∀ j : Int, currentStep < j → fadeOpacity j currentStep direction = 0) := by
  refine ⟨?_, ?_, ?_⟩
  · rcases lt_trichotomy index currentStep with h | h | h
    · have h1 : ¬ currentStep < index := by omega
      simp [targetOpacity, fadeOpacity, h, h1]
    · subst h
      by_cases hd : direction = 1 <;>
        simp [targetOpacity, fadeOpacity, hd, hmp]
    · have h1 : ¬ index < currentStep := by omega
      have h2 : ¬ (index = currentStep ∧ direction = 1) := by
        rintro ⟨he, -⟩
        omega
      simp [targetOpacity, fadeOpacity, h, h1, h2]
  · intro hd
    simp [fadeOpacity, targetOpacity, hd, hmp]
  · intro j hj
    have h1 : ¬ j < currentStep := by omega
    have h2 : ¬ (j = currentStep ∧ direction = 1) := by
      rintro ⟨he, -⟩
      omega
    simp [fadeOpacity, h1, h2]

/-- Witness for C7 at concrete inputs: current stroke 3 while erasing,
with no maskPath, is hidden and matches pending stroke 5. -/
theorem c7_fade_backward_hidden_witness :
    targetOpacity 3 3 (-1) none = fadeOpacity 3 3 (-1)
  ∧ (fadeOpacity 3 3 (-1) = 0 ∧ targetOpacity 3 3 (-1) none = 0)
  ∧ fadeOpacity 5 3 (-1) = 0 := by
  have h := c7_fade_backward_hidden 3 3 (-1) none (by decide)
  exact ⟨h.1, h.2.1 (by decide), h.2.2 5 (by decide)⟩

/-! ## Claim theorems: segment timing -/

/-- Claim C3: for a recorded trace with positive measured total length,
the computed segments keep the measured lengths, each gets the duration
proportional to its length share of the total, the durations sum
exactly to the stroke duration, each delay is the sum of the preceding
durations, and consecutive segments are strictly sequential. -/
theorem c3_segment_timing (measure : Option String → ℚ) (D : ℚ)
    (r : RecordedStrokeData) (hpos : 0 < totalLenOf measure r) :
    ((computeSegments measure D (some r)).map Seg.len
        = (measuredOf measure r).map MeasuredSeg.len)
  ∧ ((computeSegments measure D (some r)).map Seg.duration).sum = D
  ∧ (∀ (i : Nat) (h : i < (computeSegments measure D (some r)).length),
      ((computeSegments measure D (some r)).get ⟨i, h⟩).duration
        = ((computeSegments measure D (some r)).get ⟨i, h⟩).len
            / totalLenOf measure r * D)
  ∧ (∀ (i : Nat) (h : i < (computeSegments measure D (some r)).length),
      ((computeSegments measure D (some r)).get ⟨i, h⟩).delay
        = (((computeSegments measure D (some r)).take i).map Seg.duration).sum)
  ∧ (∀ (i : Nat) (h : i + 1 < (computeSegments measure D (some r)).length)
        (h' : i < (computeSegments measure D (some r)).length),
      ((computeSegments measure D (some r)).get ⟨i + 1, h⟩).delay
        = ((computeSegments measure D (some r)).get ⟨i, h'⟩).delay
          + ((computeSegments measure D (some r)).get ⟨i, h'⟩).duration) := by
  refine ⟨?_, ?_, ?_, ?_, ?_⟩
  · simpa [computeSegments] using
      assignTiming_map_len D (totalLenOf measure r) (measuredOf measure r) 0
  · have h := assignTiming_sum_pos D (totalLenOf measure r)
      (measuredOf measure r) 0 hpos
    simp only [computeSegments]
    rw [h]
    have : ((measuredOf measure r).map MeasuredSeg.len).sum
        = totalLenOf measure r := rfl
    rw [this, div_self (ne_of_gt hpos), one_mul]
  · intro i h
    exact assignTiming_get_duration D (totalLenOf measure r) hpos
      (measuredOf measure r) 0 i h
  · intro i h
    have := assignTiming_get_delay D (totalLenOf measure r)
      (measuredOf measure r) 0 i h
    simpa using this
  · intro i h h'
    exact assignTiming_delay_succ D (totalLenOf measure r)
      (measuredOf measure r) 0 i h h'

/-- Witness for C3: two recorded segments each measuring to length two
with stroke duration 1000 get durations that sum exactly to 1000. -/
theorem c3_segment_timing_witness :
    ((computeSegments (fun _ => 2) 1000
        (some ⟨none, none, some [⟨some "A", none⟩, ⟨some "B", none⟩]⟩)).map
          Seg.duration).sum = 1000 :=
  (c3_segment_timing (fun _ => 2) 1000
    ⟨none, none, some [⟨some "A", none⟩, ⟨some "B", none⟩]⟩
    (by norm_num [totalLenOf, measuredOf, selectRaw, orFalsy])).2.1

/-- Claim C10: when every measured segment length is zero, the guard on
the total length assigns every segment a duration of zero and a start
offset of zero; the timing computation stays well defined. -/
theorem c10_zero_total_guard (measure : Option String → ℚ) (D : ℚ)
    (r : RecordedStrokeData)
    (hz : ∀ m ∈ measuredOf measure r, m.len = 0) :
    ∀ s ∈ computeSegments measure D (some r), s.duration = 0 ∧ s.delay = 0 := by
  have hT : totalLenOf measure r = 0 := by
    unfold totalLenOf
    apply List.sum_eq_zero
    intro x hx
    simp only [List.mem_map] at hx
    obtain ⟨m, hm, rfl⟩ := hx
    exact hz m hm
  intro s hs
  simp only [computeSegments] at hs
  exact assignTiming_not_pos D (totalLenOf measure r)
    (by rw [hT]; exact lt_irrefl 0) (measuredOf measure r) 0 s hs

/-- Witness for C10: a single legacy segment whose path measures to
zero gets duration zero and delay zero. -/
theorem c10_zero_total_guard_witness :
    (Seg.duration ⟨some "Z", 12, 0, 0, 0⟩ = 0)
  ∧ (Seg.delay ⟨some "Z", 12, 0, 0, 0⟩ = 0) :=
  c10_zero_total_guard (fun _ => 0) 1000 ⟨some "Z", none, none⟩
    (by simp [measuredOf, selectRaw, orFalsy])
    ⟨some "Z", 12, 0, 0, 0⟩
    (by simp [computeSegments, measuredOf, selectRaw, orFalsy, totalLenOf,
      assignTiming])

/-! ## Helper lemmas about the playback controller -/

/-- One controller transition preserves the controller invariant. -/
theorem nextTransition_inv (cfg : Config) (total : Int) {s s' : PState}
    {t : ℚ} (hinv : ControllerInv total s)
    (h : nextTransition cfg total s = some (t, s')) : ControllerInv total s' := by
  obtain ⟨hdir, hlo, hhi⟩ := hinv
  unfold nextTransition at h
  split_ifs at h with hd hstep hloop hstep2
  · simp only [Option.some.injEq, Prod.mk.injEq] at h
    obtain ⟨-, hs'⟩ := h
    subst hs'
    refine ⟨hdir, ?_, ?_⟩
    · show 0 ≤ s.step + 1
      omega
    · show s.step + 1 ≤ total - 1
      omega
  · simp only [Option.some.injEq, Prod.mk.injEq] at h
    obtain ⟨-, hs'⟩ := h
    subst hs'
    exact ⟨Or.inr rfl, hlo, hhi⟩
  · simp only [Option.some.injEq, Prod.mk.injEq] at h
    obtain ⟨-, hs'⟩ := h
    subst hs'
    refine ⟨hdir, ?_, ?_⟩
    · show 0 ≤ s.step - 1
      omega
    · show s.step - 1 ≤ total - 1
      omega
  · simp only [Option.some.injEq, Prod.mk.injEq] at h
    obtain ⟨-, hs'⟩ := h
    subst hs'
    exact ⟨Or.inl rfl, hlo, hhi⟩

/-- Every state reachable from the started state satisfies the
controller invariant, for a document with at least one stroke. -/
theorem reaches_inv (cfg : Config) (total : Int) (h1 : 1 ≤ total)
    {s : PState} (hs : Reaches cfg total ⟨0, 1⟩ s) : ControllerInv total s := by
  induction hs with
  | refl =>
    refine ⟨Or.inl rfl, le_refl 0, ?_⟩
    show (0 : Int) ≤ total - 1
    omega
  | tick hab hbc ih => exact nextTransition_inv cfg total ih hbc

/-! ## Claim theorems: controller -/

/-- Claim C2: for a document with at least one stroke and every state
reachable after start-up, the step stays in the interval from -1 to
total minus one; the start transition is the single jump from -1 to 0;
and every controller transition either changes the step by exactly
plus one (writing, below the top) or minus one (erasing, above zero)
with the direction unchanged, or keeps the step and flips the
direction, to Backward only at step total minus one and to Forward
only at step zero. -/
theorem c2_step_monotonicity (cfg : Config) (total : Int) (h1 : 1 ≤ total)
    (s : PState) (hs : Reaches cfg total ⟨0, 1⟩ s) :
    (-1 ≤ s.step ∧ s.step ≤ total - 1)
  ∧ startTransition ⟨-1, 1⟩ = (⟨0, 1⟩ : PState)
  ∧ (∀ (t : ℚ) (s' : PState), nextTransition cfg total s = some (t, s') →
      ((s'.direction = s.direction
          ∧ ((s.direction = 1 ∧ s.step < total - 1 ∧ s'.step = s.step + 1)
             ∨ (s.direction = -1 ∧ 0 < s.step ∧ s'.step = s.step - 1)))
       ∨ (s'.step = s.step
          ∧ ((s.direction = 1 ∧ s.step = total - 1 ∧ s'.direction = -1)
             ∨ (s.direction = -1 ∧ s.step = 0 ∧ s'.direction = 1))))) := by
  obtain ⟨hdir, hlo, hhi⟩ := reaches_inv cfg total h1 hs
  refine ⟨⟨by omega, hhi⟩, rfl, ?_⟩
  intro t s' h
  unfold nextTransition at h
  split_ifs at h with hd hstep hloop hstep2
  · simp only [Option.some.injEq, Prod.mk.injEq] at h
    obtain ⟨-, hs'⟩ := h
    subst hs'
    exact Or.inl ⟨rfl, Or.inl ⟨hd, hstep, rfl⟩⟩
  · simp only [Option.some.injEq, Prod.mk.injEq] at h
    obtain ⟨-, hs'⟩ := h
    subst hs'
    exact Or.inr ⟨rfl, Or.inl ⟨hd, by omega, rfl⟩⟩
  · simp only [Option.some.injEq, Prod.mk.injEq] at h
    obtain ⟨-, hs'⟩ := h
    subst hs'
    have hdm : s.direction = -1 := by
      rcases hdir with h' | h'
      · exact absurd h' hd
      · exact h'
    exact Or.inl ⟨rfl, Or.inr ⟨hdm, hstep2, rfl⟩⟩
  · simp only [Option.some.injEq, Prod.mk.injEq] at h
    obtain ⟨-, hs'⟩ := h
    subst hs'
    have hdm : s.direction = -1 := by
      rcases hdir with h' | h'
      · exact absurd h' hd
      · exact h'
    exact Or.inr ⟨rfl, Or.inr ⟨hdm, by omega, rfl⟩⟩

/-- Witness for C2: with the default configuration and two strokes,
from the started state the first tick advances the step from 0 to 1
with the direction unchanged. -/
theorem c2_step_monotonicity_witness :
    ((-1 : Int) ≤ 0 ∧ (0 : Int) ≤ 2 - 1)
  ∧ startTransition ⟨-1, 1⟩ = (⟨0, 1⟩ : PState)
  ∧ (((1 : Int) = 1
        ∧ (((1 : Int) = 1 ∧ (0 : Int) < 2 - 1 ∧ (1 : Int) = 0 + 1)
           ∨ ((1 : Int) = -1 ∧ (0 : Int) < 0 ∧ (1 : Int) = 0 - 1)))
     ∨ ((1 : Int) = 0
        ∧ (((1 : Int) = 1 ∧ (0 : Int) = 2 - 1 ∧ (1 : Int) = -1)
           ∨ ((1 : Int) = -1 ∧ (0 : Int) = 0 ∧ (1 : Int) = 1)))) := by
  have h := c2_step_monotonicity defaultConfig 2 (by decide) ⟨0, 1⟩
    (Reaches.refl _)
  exact ⟨h.1, h.2.1,
    h.2.2 (defaultConfig.duration + defaultConfig.delay) ⟨1, 1⟩ (by rfl)⟩

/-- Claim C5: with looping disabled, once the controller sits at the
last stroke while writing, the tick handler schedules nothing, and no
number of further steps ever produces another state. -/
theorem c5_no_loop_halts (cfg : Config) (total : Int) (hloop : cfg.loop = false)
    (n : Nat) :
    nextTransition cfg total ⟨total - 1, 1⟩ = none
  ∧ run cfg total ⟨total - 1, 1⟩ (n + 1) = none := by
  have hnone : nextTransition cfg total ⟨total - 1, 1⟩ = none := by
    simp [nextTransition, hloop]
  refine ⟨hnone, ?_⟩
  induction n with
  | zero => simp [run, hnone]
  | succ n ih => rw [run, ih]

/-- Witness for C5: a non-looping player with three strokes halts at
step two; six further controller steps produce nothing. -/
theorem c5_no_loop_halts_witness :
    nextTransition ⟨false, 1000, 100, 2000, 500⟩ 3 ⟨3 - 1, 1⟩ = none
  ∧ run ⟨false, 1000, 100, 2000, 500⟩ 3 ⟨3 - 1, 1⟩ (5 + 1) = none :=
  c5_no_loop_halts ⟨false, 1000, 100, 2000, 500⟩ 3 rfl 5

/-- Claim C6: when erasing at step zero a tick schedules exactly one
direction change to Forward after the post-erase dwell (on top of the
tick interval) with the step unchanged; the next regular tick, after
the stroke duration plus the inter-stroke delay, increments the step
from 0 to 1 (with at least two strokes); and the step is never reset
to -1 after the start transition. -/
theorem c6_end_of_erase (cfg : Config) (total : Int) (h2 : 2 ≤ total)
    (s : PState) (hs : Reaches cfg total ⟨0, 1⟩ s) :
    nextTransition cfg total ⟨0, -1⟩
      = some (cfg.duration + cfg.delay + cfg.eraseDelay, ⟨0, 1⟩)
  ∧ nextTransition cfg total ⟨0, 1⟩ = some (cfg.duration + cfg.delay, ⟨1, 1⟩)
  ∧ 0 ≤ s.step := by
  refine ⟨?_, ?_, (reaches_inv cfg total (by omega) hs).2.1⟩
  · simp [nextTransition]
  · have h : (0 : Int) < total - 1 := by omega
    simp [nextTransition, h]

/-- Witness for C6 with the default configuration, two strokes and the
started state. -/
theorem c6_end_of_erase_witness :
    nextTransition defaultConfig 2 ⟨0, -1⟩
      = some (defaultConfig.duration + defaultConfig.delay
          + defaultConfig.eraseDelay, ⟨0, 1⟩)
  ∧ nextTransition defaultConfig 2 ⟨0, 1⟩
      = some (defaultConfig.duration + defaultConfig.delay, ⟨1, 1⟩)
  ∧ 0 ≤ (PState.mk 0 1).step :=
  c6_end_of_erase defaultConfig 2 (by decide) ⟨0, 1⟩ (Reaches.refl _)

/-! ## Claim theorems: time-reversal of the traced animation -/

/-- The backward reveal schedule with the mirrored delay is the exact
time reversal of the forward reveal schedule, for a segment of
positive duration. -/
theorem reveal_time_reversal (L dur dl D t : ℚ) (hdur : 0 < dur) :
    undashRevealed L dur (D - (dl + dur)) t
      = dashRevealed L dur dl (D - t) := by
  have hne : dur ≠ 0 := ne_of_gt hdur
  unfold undashRevealed dashRevealed backwardOffset forwardOffset
  split_ifs with h1 h2 h3 h4 h5 h6
  all_goals try linarith
  · field_simp
    ring
  · have ht : t = D - (dl + dur) := by linarith
    subst ht
    field_simp
  · have ht : t = D - dl := by linarith
    subst ht
    ring

/-- Claim C4: for the current traced stroke, the erase branch attaches
the undash animation with the same duration as the write branch's dash
animation and the mirrored start delay, the stroke duration minus the
segment start plus its duration; consequently the revealed length of
the backward schedule at time t equals the revealed length of the
forward schedule at time D minus t, for a segment of positive
duration. -/
theorem c4_time_reversal (D t : ℚ) (i : Int) (seg : Seg)
    (hdur : 0 < seg.duration) :
    segAnimOf D i i (-1) seg
      = SegAnim.undash seg.duration (D - (seg.delay + seg.duration))
  ∧ segAnimOf D i i 1 seg = SegAnim.dash seg.duration seg.delay
  ∧ undashRevealed seg.len seg.duration (D - (seg.delay + seg.duration)) t
      = dashRevealed seg.len seg.duration seg.delay (D - t) := by
  refine ⟨by simp [segAnimOf], by simp [segAnimOf], ?_⟩
  exact reveal_time_reversal seg.len seg.duration seg.delay D t hdur

/-- Witness for C4 at a concrete segment: length 8, duration 500,
delay 100, stroke duration 1000, sampled at time 250. -/
theorem c4_time_reversal_witness :
    segAnimOf 1000 0 0 (-1) ⟨some "M", 12, 8, 500, 100⟩
      = SegAnim.undash 500 (1000 - (100 + 500))
  ∧ segAnimOf 1000 0 0 1 ⟨some "M", 12, 8, 500, 100⟩ = SegAnim.dash 500 100
  ∧ undashRevealed 8 500 (1000 - (100 + 500)) 250
      = dashRevealed 8 500 100 (1000 - 250) :=
  c4_time_reversal 1000 250 0 ⟨some "M", 12, 8, 500, 100⟩ (by decide)

/-! ## Claim theorems: empty segment list fallback -/

/-- Claim C8 counterexample: an entry that is present but whose
rawStrokes list is empty (and has no legacy path) is not rendered like
a stroke with no recorded trace: the loader falls back to the legacy
single segment, so the renderer emits a masked group instead of the
fade path.  Concretely, at stroke duration 1000, completed stroke 0
with current step 1 while writing, the two presentations differ. -/
theorem c8_counterexample :
    renderFromData (fun _ => 0) 1000 "M0 0" none 0 1 1
        (some ⟨none, none, some []⟩)
      ≠ renderFromData (fun _ => 0) 1000 "M0 0" none 0 1 1 none := by
  intro h
  simp [renderFromData, renderStroke, computeSegments, measuredOf, selectRaw,
    totalLenOf, orFalsy, assignTiming] at h

/-- Claim C8 (amended): the renderer's fallback guard does make a
stroke whose measured segment state is empty renderer-equivalent to a
stroke with no recorded trace at all (the identical fade presentation,
with no effect on other strokes); but the loader maps a present entry
with an empty rawStrokes list to the legacy single segment, so such an
entry is rendered in traced mode rather than fade mode. -/
theorem c8_empty_fallback (D : ℚ) (d : String) (color : Option String)
    (index currentStep direction : Int) (r : RecordedStrokeData)
    (segs : List Seg) :
    renderStroke D d color index currentStep direction (some r) []
      = renderStroke D d color index currentStep direction none segs
  ∧ selectRaw ⟨r.d, r.width, some []⟩ = [⟨r.d, r.width⟩] := by
  constructor
  · simp [renderStroke]
  · simp [selectRaw]

/-! ## Helper lemmas about the fetch effect -/

/-- Any event other than a fetch resolution keeps a quiescent world
quiescent. -/
theorem fstep_quiet (w : FetchWorld) (hw : Quiet w) (e : FEvent)
    (he : ∀ b, e ≠ FEvent.resolve b) : Quiet (fstep w e) := by
  obtain ⟨h1, h2, h3⟩ := hw
  cases e with
  | teardown => exact ⟨h1, h2, rfl⟩
  | resolve b => exact absurd rfl (he b)
  | timerFire =>
    show Quiet (if w.timerArmed then _ else w)
    rw [h3]
    exact ⟨h1, h2, h3⟩

/-- A resolution-free event list keeps a quiescent world quiescent. -/
theorem foldl_quiet (l : List FEvent)
    (hl : ∀ e ∈ l, ∀ b, e ≠ FEvent.resolve b)
    (w : FetchWorld) (hw : Quiet w) : Quiet (l.foldl fstep w) := by
  induction l generalizing w with
  | nil => exact hw
  | cons e l ih =>
    rw [List.foldl_cons]
    exact ih (fun x hx => hl x (List.mem_cons_of_mem e hx)) _
      (fstep_quiet w hw e (hl e (List.mem_cons_self e l)))

/-- No event whatsoever can wake a dead (aborted and quiescent) world:
a late resolution is dropped by the abort guard, the start timer is no
longer armed, and teardown changes nothing relevant. -/
theorem fstep_dead (w : FetchWorld) (hw : Dead w) (e : FEvent) :
    Dead (fstep w e) := by
  obtain ⟨ha, h1, h2, h3⟩ := hw
  cases e with
  | teardown => exact ⟨rfl, h1, h2, rfl⟩
  | resolve b =>
    show Dead (if w.aborted then w else _)
    rw [ha]
    exact ⟨ha, h1, h2, h3⟩
  | timerFire =>
    show Dead (if w.timerArmed then _ else w)
    rw [h3]
    exact ⟨ha, h1, h2, h3⟩

/-- A dead world stays dead under any event list. -/
theorem foldl_dead (l : List FEvent) (w : FetchWorld) (hw : Dead w) :
    Dead (l.foldl fstep w) := by
  induction l generalizing w with
  | nil => exact hw
  | cons e l ih =>
    rw [List.foldl_cons]
    exact ih _ (fstep_dead w hw e)

/-! ## Claim theorems: fetch cancellation -/

/-- Claim C9 counterexample: in the part_000 variant the fetch effect
registers no cleanup, so tearing the player down before the fetch
resolves does not cancel the late response or the start timer: the
late resolution still sets the document state and the start timer
still fires and sets the step to zero. -/
theorem c9_counterexample :
    ((([FEvent.teardown, FEvent.resolve true, FEvent.timerFire] :
        List FEvent).foldl fstep000 initWorld).dataSet = true)
  ∧ ((([FEvent.teardown, FEvent.resolve true, FEvent.timerFire] :
        List FEvent).foldl fstep000 initWorld).step = 0) := by
  decide

/-- Claim C9 (amended): in the signature-player.js fetch effect, which
registers a cleanup that aborts the fetch controller and clears the
start timer, tearing the player down before the fetch resolves leaves
no pending state mutation: whatever events follow, the document state
is never set (so no tick effect ever runs), the step stays -1, and no
start timer remains armed.  The part_000 variant registers no such
cleanup and violates this. -/
theorem c9_abort_cancels (pre post : List FEvent)
    (hpre : ∀ e ∈ pre, ∀ b, e ≠ FEvent.resolve b) :
    ((pre ++ FEvent.teardown :: post).foldl fstep initWorld).dataSet = false
  ∧ ((pre ++ FEvent.teardown :: post).foldl fstep initWorld).step = -1
  ∧ ((pre ++ FEvent.teardown :: post).foldl fstep initWorld).timerArmed
      = false := by
  have hq : Quiet (pre.foldl fstep initWorld) :=
    foldl_quiet pre hpre initWorld ⟨rfl, rfl, rfl⟩
  have hd : Dead (fstep (pre.foldl fstep initWorld) FEvent.teardown) := by
    obtain ⟨h1, h2, h3⟩ := hq
    exact ⟨rfl, h1, h2, rfl⟩
  have hfin := foldl_dead post _ hd
  rw [List.foldl_append, List.foldl_cons]
  exact hfin.2

/-- Witness for C9: a concrete event sequence in which the teardown
precedes the resolution; afterwards nothing was mutated. -/
theorem c9_abort_cancels_witness :
    ((([FEvent.timerFire] ++ FEvent.teardown ::
        [FEvent.resolve true, FEvent.timerFire]).foldl fstep
          initWorld).dataSet = false)
  ∧ ((([FEvent.timerFire] ++ FEvent.teardown ::
        [FEvent.resolve true, FEvent.timerFire]).foldl fstep
          initWorld).step = -1)
  ∧ ((([FEvent.timerFire] ++ FEvent.teardown ::
        [FEvent.resolve true, FEvent.timerFire]).foldl fstep
          initWorld).timerArmed = false) :=
  c9_abort_cancels [FEvent.timerFire] [FEvent.resolve true, FEvent.timerFire]
    (by decide)

end TrueRestore
